import Mathlib

/-!
Shallow embedding of `src/mmlatex.py` (indentation-outline → TikZ mind-map
generator).  Text lines are modelled as `List Char`; every Python helper is
translated into an executable Lean function, and the child-processing loop of
`generate_tikz_code` becomes explicit state passing over `EmitState`.  The
emitted TikZ fragments are modelled as a list of `Emit` events together with a
`render` function that produces the exact strings the Python code appends, so
theorems can both count structural facts (branch openings/closings, angles)
and talk about the literal output text.
-/

namespace Mmlatex

/-- Convert a Lean string literal to the `List Char` representation used
throughout this embedding. -/
def chars (s : String) : List Char := s.data

/-- The whitespace characters stripped by Python's `str.strip()` /
`str.rstrip()` (ASCII whitespace, the C1 separator controls, NEL and the
non-breaking space; more exotic Unicode space classes are not modelled). -/
def pySpaceChars : List Char :=
  [' ', '\t', '\n', '\x0b', '\x0c', '\x0d', '\x1c', '\x1d', '\x1e', '\x1f', '\x85', '\xa0']

/-- Whether `c` is whitespace for Python's argument-less `strip`/`rstrip`. -/
def isPySpace (c : Char) : Bool := pySpaceChars.contains c

/-- Python `line.lstrip()` (no argument): drop leading whitespace. -/
def pyLstrip (l : List Char) : List Char := l.dropWhile isPySpace

/-- Python `line.rstrip()` (no argument): drop trailing whitespace. -/
def pyRstrip (l : List Char) : List Char := (l.reverse.dropWhile isPySpace).reverse

/-- Python `line.strip()` (no argument): drop whitespace at both ends. -/
def pyStrip (l : List Char) : List Char := pyLstrip (pyRstrip l)

/-- Constant `INDENT_SPACES` from mmlatex.py line 8. -/
def INDENT_SPACES : Nat := 4

/-- The leading-space count of `get_indentation_level` (mmlatex.py lines
117–118): the code first replaces non-breaking spaces (`\xa0`) by ordinary
spaces and then computes `len(clean) - len(clean.lstrip(' '))`, i.e. the
number of leading characters that are `' '` or `'\xa0'`. -/
def leadingSpaces : List Char → Nat
  | [] => 0
  | c :: rest => if c = ' ' || c = '\xa0' then leadingSpaces rest + 1 else 0

/-- Function `get_indentation_level` (mmlatex.py lines 114–119). -/
def get_indentation_level (l : List Char) : Nat := leadingSpaces l / INDENT_SPACES

/-- The delimiter literal `" - "` that `parse_line` splits on. -/
def delim : List Char := [' ', '-', ' ']

/-- Whether a character list starts with the `" - "` delimiter. -/
def startsWithDelim (l : List Char) : Bool :=
  match l with
  | c1 :: c2 :: c3 :: _ => c1 = ' ' && c2 = '-' && c3 = ' '
  | _ => false

/-- Split at the first occurrence of the `" - "` delimiter, returning the text
before and after it; `none` when the delimiter does not occur.  This models
Python's `full_text.split(' - ', 1)` from mmlatex.py line 123. -/
def findSplit : List Char → Option (List Char × List Char)
  | [] => none
  | c :: rest =>
    if startsWithDelim (c :: rest) then some ([], rest.drop 2)
    else
      match findSplit rest with
      | some pd => some (c :: pd.1, pd.2)
      | none => none

/-- Function `parse_line` (mmlatex.py lines 121–126): strip the line, split on the
first `" - "`, strip both parts; the description is empty when the delimiter
is absent. -/
def parse_line (line : List Char) : List Char × List Char :=
  let full := pyStrip line
  match findSplit full with
  | some pd => (pyStrip pd.1, pyStrip pd.2)
  | none => (full, [])

/-- Python `s.replace(c, r)` for a single-character needle `c`: replace every
occurrence of `c` by `r`, left to right. -/
def replaceChar (c : Char) (r : List Char) : List Char → List Char
  | [] => []
  | x :: xs => if x = c then r ++ replaceChar c r xs else x :: replaceChar c r xs

/-- Table-cell escaping (mmlatex.py lines 102–103): backslash first (to
`\textbackslash `), then `&`, `%`, `_`. -/
def escapeTable (s : List Char) : List Char :=
  replaceChar '_' (chars "\\_")
    (replaceChar '%' (chars "\\%")
      (replaceChar '&' (chars "\\&")
        (replaceChar '\\' (chars "\\textbackslash ") s)))

/-- Child-concept escaping (mmlatex.py line 167): `&`, `%`, `_`. -/
def escapeConcept (s : List Char) : List Char :=
  replaceChar '_' (chars "\\_")
    (replaceChar '%' (chars "\\%")
      (replaceChar '&' (chars "\\&") s))

/-- Root-concept escaping (mmlatex.py line 143): only `&` and `%`. -/
def escapeRoot (s : List Char) : List Char :=
  replaceChar '%' (chars "\\%") (replaceChar '&' (chars "\\&") s)

/-- Root formatting (mmlatex.py line 145): spaces become `\\ ` line breaks. -/
def formatRoot (s : List Char) : List Char :=
  replaceChar ' ' (chars "\\\\ ") (escapeRoot s)

/-- Constant `LEVEL_1_ANGLES` (mmlatex.py line 10). -/
def LEVEL_1_ANGLES : List Nat := [150, 30, 270, 210, 90, 330]

/-- Lookup `LEVEL_1_ANGLES[i % len(LEVEL_1_ANGLES)]` (mmlatex.py line 178). -/
def angleAt (i : Nat) : Nat := LEVEL_1_ANGLES.getD (i % LEVEL_1_ANGLES.length) 0

/-- The depth committed to a child line (mmlatex.py lines 157–162): raw depth
from indentation, floored to 1, clamped to `current_depth + 1`. -/
def childDepth (current_depth : Nat) (line : List Char) : Nat :=
  let depth := max 1 (get_indentation_level line)
  if depth > current_depth + 1 then current_depth + 1 else depth

/-- One fragment appended to `tikz_nodes` (mmlatex.py lines 174, 179, 182,
184, 190), in structured form; `render` recovers the exact text. -/
inductive Emit where
  | closeBr (depth count : Nat)
  | openAngle (depth angle : Nat)
  | openPlain (depth : Nat)
  | nodeContent (depth : Nat) (label : List Char)
  | finalClose (count : Nat)
deriving DecidableEq, Repr

/-- Indentation text `"    " * depth`. -/
def indentStr (depth : Nat) : List Char := (List.replicate depth (chars "    ")).flatten

/-- Decimal digits of a natural number, as characters. -/
def natChars (n : Nat) : List Char := (Nat.repr n).data

/-- The exact text of each fragment, as appended by the Python code:
`closeBr d c` is `"    "*d + "} "*c + "\n"` (line 174); `openAngle d a` is
`"    "*d + "child[grow=A] {\n"` (line 179); `openPlain d` is
`"    "*d + "child {\n"` (line 182); `nodeContent d s` is
`"    "*(d+1) + "node[concept] {s}"` (line 184); `finalClose c` is
`"} " * c` (line 190). -/
def render : Emit → List Char
  | .closeBr depth count =>
      indentStr depth ++ (List.replicate count (chars "\x7d ")).flatten ++ chars "\n"
  | .openAngle depth angle =>
      indentStr depth ++ chars "child[grow=" ++ natChars angle ++ chars "] \x7b\n"
  | .openPlain depth => indentStr depth ++ chars "child \x7b\n"
  | .nodeContent depth label =>
      indentStr (depth + 1) ++ chars "node[concept] \x7b" ++ label ++ chars "\x7d"
  | .finalClose count => (List.replicate count (chars "\x7d ")).flatten

/-- The mutable state of the child loop in `generate_tikz_code`
(mmlatex.py lines 129–132). -/
structure EmitState where
  tikz_nodes : List Emit
  table_data : List (List Char × List Char)
  current_depth : Nat
  angle_index : Nat
deriving DecidableEq, Repr

/-- The fragments appended for one non-blank child line (mmlatex.py lines
171–184): the close fragment when stepping level or back, then the opening
(angled at depth 1), then the content node. -/
def childEmits (current_depth angle_index depth : Nat) (safe_concept : List Char) :
    List Emit :=
  (if depth ≤ current_depth then [Emit.closeBr depth (current_depth - depth + 1)] else [])
    ++ (if depth = 1 then [Emit.openAngle depth (angleAt angle_index)]
        else [Emit.openPlain depth])
    ++ [Emit.nodeContent depth safe_concept]

/-- The body of the `for line in lines_to_process` loop (mmlatex.py lines
152–186): rstrip, skip blank lines, compute the clamped depth, record the
table entry, append the close/open/node fragments, update the counters. -/
def stepChild (s : EmitState) (line0 : List Char) : EmitState :=
  let line := pyRstrip line0
  if pyStrip line = [] then s
  else
    let depth := childDepth s.current_depth line
    let cd := parse_line line
    { tikz_nodes :=
        s.tikz_nodes ++ childEmits s.current_depth s.angle_index depth (escapeConcept cd.1),
      table_data := s.table_data ++ [cd],
      current_depth := depth,
      angle_index := if depth = 1 then s.angle_index + 1 else s.angle_index }

/-- Run the child loop over a list of lines. -/
def runChildren (s : EmitState) : List (List Char) → EmitState
  | [] => s
  | l :: ls => runChildren (stepChild s l) ls

/-- Constant `LATEX_START_TEMPLATE` (mmlatex.py lines 14–62), transcribed verbatim
(brace characters written with `\x7b`/`\x7d` escapes, apostrophes with
`\x27`; trailing spaces of the source are preserved). -/
def LATEX_START_TEMPLATE : List Char := chars
  ("\n\\documentclass[11pt, a4paper]\x7barticle\x7d\n" ++
   "\\usepackage[a4paper, margin=1in]\x7bgeometry\x7d\n" ++
   "\\usepackage\x7btikz\x7d\n" ++
   "\\usepackage\x7bfontspec\x7d\n" ++
   "\\usepackage[english]\x7bbabel\x7d\n" ++
   "\\usepackage\x7blongtable\x7d \n" ++
   "\\usepackage\x7bbooktabs\x7d\n" ++
   "\n" ++
   "% Use Noto Sans for clean, modern look\n" ++
   "\\babelfont\x7brm\x7d\x7bNoto Sans\x7d \n" ++
   "\n" ++
   "% FIXED: Loaded \x27babel\x27 library to prevent conflicts with TikZ syntax\n" ++
   "\\usetikzlibrary\x7bmindmap, trees, shadows, babel\x7d\n" ++
   "\n" ++
   "\\pagestyle\x7bempty\x7d \n" ++
   "\n" ++
   "\\begin\x7bdocument\x7d\n" ++
   "\\centering\n" ++
   "\\section*\x7bProject Phases Mind Map\x7d\n" ++
   "\n" ++
   "\\begin\x7btikzpicture\x7d[\n" ++
   "    mindmap,\n" ++
   "    grow cyclic, \n" ++
   "    text=white,\n" ++
   "    concept color=blue!70!black, \n" ++
   "    every node/.style=\x7bconcept, minimum width=2.5cm, align=center, font=\\large\x7d,\n" ++
   "    level 1 concept/.append style=\x7b\n" ++
   "        level distance=4cm, \n" ++
   "        sibling angle=120, \n" ++
   "        concept color=red!70, \n" ++
   "        font=\\Large\\bfseries\n" ++
   "    \x7d,\n" ++
   "    level 2 concept/.append style=\x7b\n" ++
   "        level distance=3.5cm, \n" ++
   "        sibling angle=60, \n" ++
   "        concept color=orange!70,\n" ++
   "        font=\\large\\sffamily\n" ++
   "    \x7d,\n" ++
   "    level 3 concept/.append style=\x7b\n" ++
   "        level distance=3cm, \n" ++
   "        sibling angle=45, \n" ++
   "        concept color=green!70!black,\n" ++
   "        font=\\small\\sffamily\n" ++
   "    \x7d,\n" ++
   "]\n" ++
   "\n" ++
   "  % START OF TIKZ NODES\n")

/-- Constant `TIKZ_END` (mmlatex.py lines 64–72). -/
def TIKZ_END : List Char := chars
  ("\n  ; % End of the main node structure\n" ++
   "\n" ++
   "\\end\x7btikzpicture\x7d\n" ++
   "\n" ++
   "\\vspace\x7b0.5in\x7d\n" ++
   "\\footnotesize\n" ++
   "\\textit\x7bThis mind map was generated from an indented text file using a Python script.\x7d\n")

/-- Constant `LATEX_END` (mmlatex.py lines 74–77). -/
def LATEX_END : List Char := chars "\n\n\\end\x7bdocument\x7d\n"

/-- The fixed leading lines of the longtable (mmlatex.py lines 81–98). -/
def tableHeaderLines : List (List Char) :=
  [chars "\\newpage",
   chars "\\section*\x7bMind Map Node Descriptions\x7d",
   chars "\x7b\\centering",
   chars "\\begin\x7blongtable\x7d\x7b@\x7b\x7d p\x7b0.3\\textwidth\x7d p\x7b0.6\\textwidth\x7d @\x7b\x7d\x7d",
   chars "    \\caption\x7bNode Details and Descriptions\x7d \\label\x7btab:node_details\x7d \\\\",
   chars "    \\toprule",
   chars "    \\textbf\x7bNode Name\x7d & \\textbf\x7bDescription\x7d \\\\",
   chars "    \\midrule",
   chars "    \\endfirsthead",
   chars "",
   chars "    \\multicolumn\x7b2\x7d\x7bc\x7d",
   chars "    \x7b\\normalfont\\textbf\x7b\\tablename~\\thetable\\ -- continued\x7d\x7d \\\\",
   chars "    \\toprule",
   chars "    \\textbf\x7bNode Name\x7d & \\textbf\x7bDescription\x7d \\\\",
   chars "    \\midrule",
   chars "    \\endhead"]

/-- One data line of the longtable (mmlatex.py lines 102–105):
`"    NAME & DESC \\"` with both cells escaped by `escapeTable`. -/
def renderTableRow (node desc : List Char) : List Char :=
  chars "    " ++ escapeTable node ++ chars " & " ++ escapeTable desc ++ chars " \\\\"

/-- Function `generate_latex_table` (mmlatex.py lines 79–112): header lines, then per
item the escaped row followed by a `\midrule`, then the closing lines; all
joined with newlines and wrapped in a leading and trailing newline. -/
def generate_latex_table (data : List (List Char × List Char)) : List Char :=
  let table_lines :=
    tableHeaderLines
      ++ (data.map (fun item => [renderTableRow item.1 item.2, chars "    \\midrule"])).flatten
      ++ [chars "    \\bottomrule", chars "\\end\x7blongtable\x7d", chars "\x7d"]
  chars "\n" ++ List.intercalate (chars "\n") table_lines ++ chars "\n"

/-- The root concept label: `parse_line(lines[0].rstrip())[0]`
(mmlatex.py lines 138–139); `[]` for the empty input (unused there). -/
def rootConcept (lines : List (List Char)) : List Char :=
  match lines with
  | [] => []
  | l0 :: _ => (parse_line (pyRstrip l0)).1

/-- Text `root_node_definition` (mmlatex.py lines 142–147):
`"\n  \node[concept] { \textbf{FORMATTED_ROOT} }"`. -/
def rootNodeDefinition (lines : List (List Char)) : List Char :=
  chars "\n  \\node[concept] \x7b \\textbf\x7b" ++ formatRoot (rootConcept lines)
    ++ chars "\x7d \x7d"

/-- The final loop state of `generate_tikz_code` on a non-empty input: the
root's table entry is recorded first (mmlatex.py line 140), then the child
loop runs over `lines[1:]` with `current_depth = 0`, `angle_index = 0`. -/
def finalState (lines : List (List Char)) : EmitState :=
  match lines with
  | [] => ⟨[], [], 0, 0⟩
  | l0 :: rest =>
      runChildren ⟨[], [parse_line (pyRstrip l0)], 0, 0⟩ rest

/-- List `table_data` accumulated over the whole run. -/
def tableData (lines : List (List Char)) : List (List Char × List Char) :=
  (finalState lines).table_data

/-- The complete list of emitted TikZ fragments: the loop's fragments plus
the final `"} " * current_depth` when any branch is still open
(mmlatex.py lines 189–190). -/
def tikzEvents (lines : List (List Char)) : List Emit :=
  let sf := finalState lines
  sf.tikz_nodes ++ (if sf.current_depth > 0 then [Emit.finalClose sf.current_depth] else [])

/-- Everything of `generate_tikz_code`'s output that precedes the longtable:
`LATEX_START_TEMPLATE + root_node_definition + tikz_code_body + TIKZ_END`
(mmlatex.py lines 192–196). -/
def nonTablePart (lines : List (List Char)) : List Char :=
  LATEX_START_TEMPLATE ++ rootNodeDefinition lines
    ++ ((tikzEvents lines).map render).flatten ++ TIKZ_END

/-- Function `generate_tikz_code` (mmlatex.py lines 128–196): `""` on the empty input
(line 135), otherwise the assembled document. -/
def generate_tikz_code (lines : List (List Char)) : List Char :=
  if lines = [] then []
  else nonTablePart lines ++ generate_latex_table (tableData lines) ++ LATEX_END

/-- The output-producing part of `main` (mmlatex.py lines 214–217): the bare
header/footer pair joined by a newline for an empty line list, otherwise
`generate_tikz_code`. -/
def mainOutput (input_lines : List (List Char)) : List Char :=
  if input_lines = [] then LATEX_START_TEMPLATE ++ chars "\n" ++ LATEX_END
  else generate_tikz_code input_lines

/-! ### Observation functions over the embedding -/

/-- Number of `child {` branch openings contributed by one fragment. -/
def emitOpens : Emit → Nat
  | .openAngle _ _ => 1
  | .openPlain _ => 1
  | _ => 0

/-- Number of `}` branch closings contributed by one fragment. -/
def emitCloses : Emit → Nat
  | .closeBr _ c => c
  | .finalClose c => c
  | _ => 0

/-- Total branch openings in a fragment list. -/
def opensCount (es : List Emit) : Nat := (es.map emitOpens).sum

/-- Total branch closings in a fragment list. -/
def closesCount (es : List Emit) : Nat := (es.map emitCloses).sum

/-- The explicit angles attached to branch openings, in emission order. -/
def anglesOf (es : List Emit) : List Nat :=
  es.filterMap fun e =>
    match e with
    | .openAngle _ a => some a
    | _ => none

/-- Whether `pat` occurs as a contiguous substring of `l`. -/
def occursSub (pat : List Char) : List Char → Bool
  | [] => pat.isEmpty
  | c :: rest => List.isPrefixOf pat (c :: rest) || occursSub pat rest

/-- Whether the `" - "` delimiter occurs somewhere in `l`. -/
def occursDelim : List Char → Bool
  | [] => false
  | c :: rest => startsWithDelim (c :: rest) || occursDelim rest

/-- Whether `l` ends with the two characters `" -"`. -/
def endsWithSpaceDash (l : List Char) : Bool :=
  match l.reverse with
  | c1 :: c2 :: _ => c1 = '-' && c2 = ' '
  | _ => false

/-- The sequence of clamped depths committed by the child loop (one entry per
non-blank line), starting from `current_depth = cd`; computed with the same
`childDepth`/blank test as `stepChild`. -/
def childDepthTrace (cd : Nat) : List (List Char) → List Nat
  | [] => []
  | l :: ls =>
    let line := pyRstrip l
    if pyStrip line = [] then childDepthTrace cd ls
    else childDepth cd line :: childDepthTrace (childDepth cd line) ls

/-- The depths of all nodes in document order: the root line is assigned 0
(mmlatex.py processes `lines[0]` outside the loop with `current_depth = 0`),
then the child-loop depths. -/
def depthTrace (lines : List (List Char)) : List Nat :=
  match lines with
  | [] => []
  | _ :: rest => 0 :: childDepthTrace 0 rest

/-- The rendered data rows of the longtable, one per `table_data` item. -/
def tableRows (lines : List (List Char)) : List (List Char) :=
  (tableData lines).map fun it => renderTableRow it.1 it.2

/-- The number of non-blank lines of the input (blank = whitespace-only). -/
def nonBlankCount (lines : List (List Char)) : Nat :=
  List.countP (fun l => !(pyStrip l).isEmpty) lines

/-- The table entries contributed by the child loop: one per non-blank line,
its parsed (label, description) pair. -/
def tableEntries (ls : List (List Char)) : List (List Char × List Char) :=
  ls.filterMap fun l =>
    if pyStrip (pyRstrip l) = [] then none else some (parse_line (pyRstrip l))

/-- Single-pass characterization of the table escaping: what one character
becomes in a table cell.  Used to state that the sequential `replace` calls
of mmlatex.py lines 102–103 never re-escape the backslashes introduced by
escaping `&`, `%`, `_`. -/
def escCharTable (c : Char) : List Char :=
  if c = '\\' then chars "\\textbackslash "
  else if c = '&' then chars "\\&"
  else if c = '%' then chars "\\%"
  else if c = '_' then chars "\\_"
  else [c]

/-- Modelled from the spec: "the first non-blank line of input" (spec §4.1),
used to compare the claimed root-selection rule against the code's actual
`lines[0]`. -/
def specFirstNonBlank (lines : List (List Char)) : Option (List Char) :=
  lines.find? fun l => !(pyStrip l).isEmpty

/-- Two corresponding lines that differ at most in the description text after
the first `" - "` delimiter: either the lines are identical (covering
description-less and blank lines), or both are `p ++ " - " ++ dᵢ` for a
common prefix `p` in which the delimiter does not occur (nor straddles its
end), with `p` and both descriptions containing at least one non-whitespace
character. -/
def relatedLine (l₁ l₂ : List Char) : Prop :=
  l₁ = l₂ ∨
  ∃ p d₁ d₂,
    l₁ = p ++ delim ++ d₁ ∧ l₂ = p ++ delim ++ d₂ ∧
    occursDelim p = false ∧ endsWithSpaceDash p = false ∧
    pyStrip p ≠ [] ∧ pyStrip d₁ ≠ [] ∧ pyStrip d₂ ≠ []

/-! ### Basic lemmas about the string helpers -/

theorem dropWhile_append_of_ne_nil {p : Char → Bool} {a b : List Char}
    (h : a.dropWhile p ≠ []) : (a ++ b).dropWhile p = a.dropWhile p ++ b := by
  induction a with
  | nil => simp at h
  | cons c a ih =>
    by_cases hc : p c
    · have h' : a.dropWhile p ≠ [] := by simpa [List.dropWhile_cons, hc] using h
      simp [List.dropWhile_cons, hc, ih h']
    · simp [List.dropWhile_cons, hc]

theorem dropWhile_append_of_nil {p : Char → Bool} {a b : List Char}
    (h : a.dropWhile p = []) : (a ++ b).dropWhile p = b.dropWhile p := by
  induction a with
  | nil => simp
  | cons c a ih =>
    by_cases hc : p c
    · simp only [List.dropWhile_cons, hc, if_true] at h
      simp [List.dropWhile_cons, hc, ih h]
    · simp [List.dropWhile_cons, hc] at h

theorem dropWhile_idem (p : Char → Bool) (l : List Char) :
    (l.dropWhile p).dropWhile p = l.dropWhile p := by
  induction l with
  | nil => rfl
  | cons c l ih =>
    by_cases hc : p c
    · simpa [List.dropWhile_cons, hc] using ih
    · simp [List.dropWhile_cons, hc]

theorem pyRstrip_idem (l : List Char) : pyRstrip (pyRstrip l) = pyRstrip l := by
  simp [pyRstrip, dropWhile_idem]

theorem pyStrip_pyRstrip (l : List Char) : pyStrip (pyRstrip l) = pyStrip l := by
  simp [pyStrip, pyRstrip_idem]

theorem pyLstrip_eq_nil_iff {l : List Char} :
    pyLstrip l = [] ↔ ∀ c ∈ l, isPySpace c := by
  simp [pyLstrip, List.dropWhile_eq_nil_iff]

theorem pyRstrip_eq_nil_iff {l : List Char} :
    pyRstrip l = [] ↔ ∀ c ∈ l, isPySpace c := by
  simp only [pyRstrip, List.reverse_eq_nil_iff, List.dropWhile_eq_nil_iff,
    List.mem_reverse]

theorem pyStrip_eq_nil_iff {l : List Char} :
    pyStrip l = [] ↔ ∀ c ∈ l, isPySpace c := by
  constructor
  · intro h c hc
    rw [pyStrip, pyLstrip_eq_nil_iff] at h
    have hsplit := List.takeWhile_append_dropWhile (p := isPySpace) (l := l.reverse)
    have hl : (List.dropWhile isPySpace l.reverse).reverse
        ++ (List.takeWhile isPySpace l.reverse).reverse = l := by
      rw [← List.reverse_append, hsplit, List.reverse_reverse]
    rw [← hl] at hc
    rcases List.mem_append.mp hc with h1 | h2
    · exact h c (by simpa [pyRstrip] using h1)
    · exact List.mem_takeWhile_imp (List.mem_reverse.mp h2)
  · intro h
    have : pyRstrip l = [] := pyRstrip_eq_nil_iff.mpr h
    simp [pyStrip, this, pyLstrip]

theorem pyRstrip_ne_nil_of_pyStrip {l : List Char} (h : pyStrip l ≠ []) :
    pyRstrip l ≠ [] := by
  intro hr
  exact h (pyStrip_eq_nil_iff.mpr (pyRstrip_eq_nil_iff.mp hr))

theorem pyLstrip_ne_nil_of_pyStrip {l : List Char} (h : pyStrip l ≠ []) :
    pyLstrip l ≠ [] := by
  intro hr
  exact h (pyStrip_eq_nil_iff.mpr (pyLstrip_eq_nil_iff.mp hr))

theorem pyRstrip_append {a b : List Char} (h : pyRstrip b ≠ []) :
    pyRstrip (a ++ b) = a ++ pyRstrip b := by
  have hb : b.reverse.dropWhile isPySpace ≠ [] := by
    intro hx; exact h (by simp [pyRstrip, hx])
  simp only [pyRstrip, List.reverse_append]
  rw [dropWhile_append_of_ne_nil hb]
  simp [pyRstrip]

theorem pyLstrip_append {a b : List Char} (h : pyLstrip a ≠ []) :
    pyLstrip (a ++ b) = pyLstrip a ++ b := by
  simpa [pyLstrip] using dropWhile_append_of_ne_nil (b := b) h

theorem pyLstrip_idem (l : List Char) : pyLstrip (pyLstrip l) = pyLstrip l := by
  simp [pyLstrip, dropWhile_idem]

theorem pyRstrip_pyLstrip (l : List Char) :
    pyRstrip (pyLstrip l) = pyLstrip (pyRstrip l) := by
  induction l with
  | nil => rfl
  | cons c t ih =>
    by_cases hc : isPySpace c
    · by_cases ht : pyRstrip t = []
      · have hts : ∀ x ∈ t, isPySpace x := pyRstrip_eq_nil_iff.mp ht
        have h1 : pyLstrip (c :: t) = pyLstrip t := by simp [pyLstrip, hc]
        have h2 : pyRstrip (c :: t) = [] := by
          rw [pyRstrip_eq_nil_iff]
          intro x hx
          rcases List.mem_cons.mp hx with rfl | hx
          · exact hc
          · exact hts x hx
        rw [h1, ih, ht, h2]
      · have h1 : pyLstrip (c :: t) = pyLstrip t := by simp [pyLstrip, hc]
        have h2 : pyRstrip (c :: t) = c :: pyRstrip t := by
          simpa using pyRstrip_append (a := [c]) (b := t) ht
        rw [h1, ih, h2]
        simp [pyLstrip, hc]
    · have h1 : pyLstrip (c :: t) = c :: t := by simp [pyLstrip, hc]
      by_cases ht : pyRstrip t = []
      · have hts : ∀ x ∈ t.reverse, isPySpace x := by
          intro x hx; exact pyRstrip_eq_nil_iff.mp ht x (List.mem_reverse.mp hx)
        have h2 : pyRstrip (c :: t) = [c] := by
          have : (t.reverse ++ [c]).dropWhile isPySpace = [c].dropWhile isPySpace := by
            apply dropWhile_append_of_nil
            rw [List.dropWhile_eq_nil_iff]; exact hts
          simp only [pyRstrip, List.reverse_cons, this]
          simp [List.dropWhile_cons, hc]
        rw [h1, h2]
        simp [pyLstrip, hc]
      · have h2 : pyRstrip (c :: t) = c :: pyRstrip t := by
          simpa using pyRstrip_append (a := [c]) (b := t) ht
        rw [h1, h2]
        simp [pyLstrip, hc]

theorem pyStrip_pyLstrip (l : List Char) : pyStrip (pyLstrip l) = pyStrip l := by
  rw [pyStrip, pyRstrip_pyLstrip, pyLstrip_idem]
  rfl

/-! ### Lemmas about the clamped depth -/

theorem childDepth_eq_min (cd : Nat) (line : List Char) :
    childDepth cd line = min (max 1 (get_indentation_level line)) (cd + 1) := by
  simp only [childDepth]
  split <;> omega

theorem one_le_childDepth (cd : Nat) (line : List Char) : 1 ≤ childDepth cd line := by
  simp only [childDepth]
  split <;> omega

theorem childDepth_le_succ (cd : Nat) (line : List Char) :
    childDepth cd line ≤ cd + 1 := by
  simp only [childDepth]
  split <;> omega

/-! ### Lemmas about the child loop -/

theorem stepChild_of_blank {s : EmitState} {l : List Char}
    (h : pyStrip (pyRstrip l) = []) : stepChild s l = s := by
  simp [stepChild, h]

theorem stepChild_of_nonblank {s : EmitState} {l : List Char}
    (h : pyStrip (pyRstrip l) ≠ []) :
    stepChild s l =
      { tikz_nodes := s.tikz_nodes ++
          childEmits s.current_depth s.angle_index
            (childDepth s.current_depth (pyRstrip l))
            (escapeConcept (parse_line (pyRstrip l)).1),
        table_data := s.table_data ++ [parse_line (pyRstrip l)],
        current_depth := childDepth s.current_depth (pyRstrip l),
        angle_index :=
          if childDepth s.current_depth (pyRstrip l) = 1 then s.angle_index + 1
          else s.angle_index } := by
  simp [stepChild, h]

theorem runChildren_invariant (P : EmitState → Prop)
    (hstep : ∀ s l, P s → P (stepChild s l)) :
    ∀ ls s, P s → P (runChildren s ls) := by
  intro ls
  induction ls with
  | nil => intro s hs; exact hs
  | cons l ls ih => intro s hs; exact ih _ (hstep s l hs)

theorem tableEntries_cons_blank {l : List Char} {ls : List (List Char)}
    (h : pyStrip (pyRstrip l) = []) : tableEntries (l :: ls) = tableEntries ls := by
  simp [tableEntries, h]

theorem tableEntries_cons_nonblank {l : List Char} {ls : List (List Char)}
    (h : pyStrip (pyRstrip l) ≠ []) :
    tableEntries (l :: ls) = parse_line (pyRstrip l) :: tableEntries ls := by
  simp [tableEntries, h]

theorem runChildren_table (ls : List (List Char)) :
    ∀ s : EmitState, (runChildren s ls).table_data = s.table_data ++ tableEntries ls := by
  induction ls with
  | nil => intro s; simp [runChildren, tableEntries]
  | cons l ls ih =>
    intro s
    by_cases h : pyStrip (pyRstrip l) = []
    · rw [runChildren, stepChild_of_blank h, ih, tableEntries_cons_blank h]
    · rw [runChildren, stepChild_of_nonblank h, ih, tableEntries_cons_nonblank h]
      simp

theorem tableEntries_length (ls : List (List Char)) :
    (tableEntries ls).length = List.countP (fun l => !(pyStrip l).isEmpty) ls := by
  induction ls with
  | nil => rfl
  | cons l ls ih =>
    by_cases h : pyStrip (pyRstrip l) = []
    · have h0 : pyStrip l = [] := by rwa [pyStrip_pyRstrip] at h
      rw [tableEntries_cons_blank h, ih, List.countP_cons]
      simp [h0]
    · have h0 : pyStrip l ≠ [] := by rwa [pyStrip_pyRstrip] at h
      rw [tableEntries_cons_nonblank h, List.length_cons, ih, List.countP_cons]
      have hb : (!(pyStrip l).isEmpty) = true := by
        simpa [List.isEmpty_iff] using h0
      rw [hb]
      simp

theorem runChildren_currentDepth (ls : List (List Char)) :
    ∀ s : EmitState,
      (runChildren s ls).current_depth =
        (childDepthTrace s.current_depth ls).getLastD s.current_depth := by
  induction ls with
  | nil => intro s; simp [runChildren, childDepthTrace]
  | cons l ls ih =>
    intro s
    by_cases h : pyStrip (pyRstrip l) = []
    · rw [runChildren, stepChild_of_blank h, ih]
      simp [childDepthTrace, h]
    · rw [runChildren, stepChild_of_nonblank h, ih]
      simp only [childDepthTrace, if_neg h, List.getLastD_cons]

/-! ### Counting branch openings and closings -/

theorem opensCount_append (a b : List Emit) :
    opensCount (a ++ b) = opensCount a + opensCount b := by
  simp [opensCount]

theorem closesCount_append (a b : List Emit) :
    closesCount (a ++ b) = closesCount a + closesCount b := by
  simp [closesCount]

theorem opensCount_finalClose (c : Nat) : opensCount [Emit.finalClose c] = 0 := rfl

theorem closesCount_finalClose (c : Nat) : closesCount [Emit.finalClose c] = c := by
  simp [closesCount, emitCloses]

theorem opensCount_childEmits (cd ai d : Nat) (sc : List Char) :
    opensCount (childEmits cd ai d sc) = 1 := by
  unfold childEmits
  split <;> split <;> simp [opensCount, emitOpens]

theorem closesCount_childEmits (cd ai d : Nat) (sc : List Char) :
    closesCount (childEmits cd ai d sc) = if d ≤ cd then cd - d + 1 else 0 := by
  unfold childEmits
  by_cases h1 : d ≤ cd
  · rw [if_pos h1, if_pos h1]
    split <;> simp [closesCount, emitCloses]
  · rw [if_neg h1, if_neg h1]
    split <;> simp [closesCount, emitCloses]

/-- Loop invariant behind the well-balancedness of the emitted markup: at
every point, the number of branch openings emitted so far exceeds the number
of closings by exactly `current_depth`. -/
theorem balance_invariant (ls : List (List Char)) :
    ∀ s : EmitState,
      opensCount s.tikz_nodes = closesCount s.tikz_nodes + s.current_depth →
      opensCount (runChildren s ls).tikz_nodes =
        closesCount (runChildren s ls).tikz_nodes + (runChildren s ls).current_depth := by
  induction ls with
  | nil => intro s hs; exact hs
  | cons l ls ih =>
    intro s hs
    by_cases h : pyStrip (pyRstrip l) = []
    · rw [runChildren, stepChild_of_blank h]; exact ih s hs
    · rw [runChildren, stepChild_of_nonblank h]
      apply ih
      simp only [opensCount_append, closesCount_append, opensCount_childEmits,
        closesCount_childEmits]
      have hle := childDepth_le_succ s.current_depth (pyRstrip l)
      by_cases hd : childDepth s.current_depth (pyRstrip l) ≤ s.current_depth
      · rw [if_pos hd]; omega
      · rw [if_neg hd]; omega

/-! ### The angle cursor invariant -/

theorem anglesOf_append (a b : List Emit) :
    anglesOf (a ++ b) = anglesOf a ++ anglesOf b := by
  simp [anglesOf]

theorem anglesOf_childEmits (cd ai d : Nat) (sc : List Char) :
    anglesOf (childEmits cd ai d sc) = if d = 1 then [angleAt ai] else [] := by
  unfold childEmits
  by_cases h2 : d = 1
  · rw [if_pos h2, if_pos h2]
    split <;> simp [anglesOf]
  · rw [if_neg h2, if_neg h2]
    split <;> simp [anglesOf]

/-- Loop invariant for the angle cursor: the angles emitted so far are exactly
`angleAt 0, …, angleAt (angle_index − 1)`, and every angled opening was made
at depth 1. -/
theorem angle_invariant (ls : List (List Char)) :
    ∀ s : EmitState,
      anglesOf s.tikz_nodes = (List.range s.angle_index).map angleAt →
      anglesOf (runChildren s ls).tikz_nodes =
        (List.range (runChildren s ls).angle_index).map angleAt := by
  induction ls with
  | nil => intro s hs; exact hs
  | cons l ls ih =>
    intro s hs
    by_cases h : pyStrip (pyRstrip l) = []
    · rw [runChildren, stepChild_of_blank h]; exact ih s hs
    · rw [runChildren, stepChild_of_nonblank h]
      apply ih
      simp only [anglesOf_append, anglesOf_childEmits]
      by_cases hd : childDepth s.current_depth (pyRstrip l) = 1
      · rw [if_pos hd, if_pos hd, hs, List.range_succ]
        simp
      · rw [if_neg hd, if_neg hd, hs]
        simp

/-- Loop invariant: every angled opening in the emitted fragments has depth 1
(`child[grow=…]` is only ever used for depth-1 branches). -/
theorem angled_depth_one_invariant (ls : List (List Char)) :
    ∀ s : EmitState,
      (∀ d a, Emit.openAngle d a ∈ s.tikz_nodes → d = 1) →
      ∀ d a, Emit.openAngle d a ∈ (runChildren s ls).tikz_nodes → d = 1 := by
  induction ls with
  | nil => intro s hs; exact hs
  | cons l ls ih =>
    intro s hs
    by_cases h : pyStrip (pyRstrip l) = []
    · rw [runChildren, stepChild_of_blank h]; exact ih s hs
    · rw [runChildren, stepChild_of_nonblank h]
      apply ih
      intro d a hmem
      rcases List.mem_append.mp hmem with hold | hnew
      · exact hs d a hold
      · unfold childEmits at hnew
        rcases List.mem_append.mp hnew with h12 | h3
        · rcases List.mem_append.mp h12 with h1 | h2
          · split at h1 <;> simp at h1
          · split at h2
            next hd =>
              simp only [List.mem_singleton, Emit.openAngle.injEq] at h2
              exact h2.1.trans hd
            next hd => simp at h2
        · simp at h3

/-! ### Splitting a line around its first `" - "` delimiter -/

theorem pyStrip_ne_nil_of_mem {l : List Char} {c : Char} (hc : c ∈ l)
    (h : isPySpace c = false) : pyStrip l ≠ [] := by
  intro hnil
  rw [pyStrip_eq_nil_iff] at hnil
  rw [hnil c hc] at h
  exact Bool.noConfusion h

theorem occursDelim_append_right {a b : List Char}
    (h : occursDelim (a ++ b) = false) : occursDelim b = false := by
  induction a with
  | nil => exact h
  | cons c a ih =>
    rw [List.cons_append, occursDelim] at h
    exact ih (Bool.or_eq_false_iff.mp h).2

theorem endsWithSpaceDash_append (a b : List Char)
    (h : endsWithSpaceDash b = true) : endsWithSpaceDash (a ++ b) = true := by
  unfold endsWithSpaceDash at h ⊢
  rcases hb : b.reverse with _ | ⟨c1, t⟩
  · rw [hb] at h; simp at h
  · rcases t with _ | ⟨c2, t2⟩
    · rw [hb] at h; simp at h
    · rw [hb] at h
      rw [List.reverse_append, hb]
      simpa using h

theorem findSplit_boundary :
    ∀ p d : List Char, occursDelim p = false → endsWithSpaceDash p = false →
      findSplit (p ++ delim ++ d) = some (p, d) := by
  intro p
  induction p with
  | nil =>
    intro d _ _
    simp [delim, findSplit, startsWithDelim]
  | cons c p' ih =>
    intro d hocc hend
    have hsw : startsWithDelim (c :: (p' ++ (delim ++ d))) = false := by
      rcases p' with _ | ⟨x, p''⟩
      · simp [delim, startsWithDelim]
      · rcases p'' with _ | ⟨y, p₃⟩
        · simp only [List.nil_append, List.cons_append, delim, startsWithDelim,
            Bool.and_eq_false_iff] at hend ⊢
          by_cases hc : c = ' '
          · by_cases hx : x = '-'
            · exfalso
              subst hc; subst hx
              simp [endsWithSpaceDash] at hend
            · simp [hx]
          · simp [hc]
        · simp only [List.cons_append, startsWithDelim]
          by_cases hc : c = ' '
          · by_cases hx : x = '-'
            · by_cases hy : y = ' '
              · exfalso
                subst hc; subst hx; subst hy
                rw [occursDelim] at hocc
                simp [startsWithDelim] at hocc
              · simp [hy]
            · simp [hx]
          · simp [hc]
    have hocc' : occursDelim p' = false := by
      rw [occursDelim] at hocc
      exact (Bool.or_eq_false_iff.mp hocc).2
    have hend' : endsWithSpaceDash p' = false := by
      by_contra hx
      rw [Bool.not_eq_false] at hx
      have h2 := endsWithSpaceDash_append [c] p' hx
      rw [List.singleton_append] at h2
      rw [h2] at hend
      exact Bool.noConfusion hend
    calc findSplit ((c :: p') ++ delim ++ d)
        = findSplit (c :: (p' ++ (delim ++ d))) := by simp
      _ = some (c :: p', d) := by
          have hrec := ih d hocc' hend'
          rw [List.append_assoc] at hrec
          simp only [findSplit, hsw, hrec]
          simp

theorem parse_line_decomp {p d : List Char}
    (hocc : occursDelim p = false) (hend : endsWithSpaceDash p = false)
    (hp : pyStrip p ≠ []) (hd : pyStrip d ≠ []) :
    parse_line (p ++ delim ++ d) = (pyStrip p, pyStrip d) := by
  have hrd : pyRstrip d ≠ [] := pyRstrip_ne_nil_of_pyStrip hd
  have hlp : pyLstrip p ≠ [] := pyLstrip_ne_nil_of_pyStrip hp
  have hfull : pyStrip (p ++ delim ++ d) = pyLstrip p ++ delim ++ pyRstrip d := by
    rw [pyStrip, pyRstrip_append (a := p ++ delim) (b := d) hrd,
      List.append_assoc, pyLstrip_append (b := delim ++ pyRstrip d) hlp,
      ← List.append_assoc]
  have hocc' : occursDelim (pyLstrip p) = false := by
    have hsplit := List.takeWhile_append_dropWhile (p := isPySpace) (l := p)
    have : occursDelim (p.takeWhile isPySpace ++ pyLstrip p) = false := by
      rw [pyLstrip]; rw [hsplit]; exact hocc
    exact occursDelim_append_right this
  have hend' : endsWithSpaceDash (pyLstrip p) = false := by
    by_contra hx
    rw [Bool.not_eq_false] at hx
    have h2 := endsWithSpaceDash_append (p.takeWhile isPySpace) (pyLstrip p) hx
    rw [pyLstrip, List.takeWhile_append_dropWhile] at h2
    rw [h2] at hend
    exact Bool.noConfusion hend
  rw [parse_line]
  rw [hfull, findSplit_boundary (pyLstrip p) (pyRstrip d) hocc' hend']
  simp [pyStrip_pyLstrip, pyStrip_pyRstrip]

theorem leadingSpaces_decomp (p d : List Char) :
    leadingSpaces (p ++ delim ++ d) = leadingSpaces (p ++ delim) := by
  induction p with
  | nil => simp [delim, leadingSpaces]
  | cons c p ih =>
    have e1 : (c :: p) ++ delim ++ d = c :: (p ++ delim ++ d) := by simp
    have e2 : (c :: p) ++ delim = c :: (p ++ delim) := by simp
    rw [e1, e2]
    cases hcb : (decide (c = ' ') || decide (c = '\xa0')) with
    | false => simp [leadingSpaces, hcb]
    | true =>
      simp [leadingSpaces, hcb]
      rw [← List.append_assoc]
      exact ih

theorem parse_line_pyRstrip (l : List Char) :
    parse_line (pyRstrip l) = parse_line l := by
  simp only [parse_line, pyStrip_pyRstrip]

/-- The facts shared by two lines that differ at most in their description:
they are blank together, their indentation levels agree, and they parse to
the same concept label. -/
theorem relatedLine_facts {l₁ l₂ : List Char} (h : relatedLine l₁ l₂) :
    (pyStrip l₁ = [] ↔ pyStrip l₂ = []) ∧
    get_indentation_level (pyRstrip l₁) = get_indentation_level (pyRstrip l₂) ∧
    (parse_line (pyRstrip l₁)).1 = (parse_line (pyRstrip l₂)).1 := by
  rcases h with rfl | ⟨p, d₁, d₂, he₁, he₂, hocc, hend, hp, hd₁, hd₂⟩
  · exact ⟨Iff.rfl, rfl, rfl⟩
  have hdash : isPySpace '-' = false := by decide
  have hmem : ∀ d : List Char, '-' ∈ p ++ delim ++ d := by
    intro d
    rw [List.append_assoc]
    exact List.mem_append_right p (List.mem_append_left d (by simp [delim]))
  have hb₁ : pyStrip l₁ ≠ [] := by
    rw [he₁]; exact pyStrip_ne_nil_of_mem (hmem d₁) hdash
  have hb₂ : pyStrip l₂ ≠ [] := by
    rw [he₂]; exact pyStrip_ne_nil_of_mem (hmem d₂) hdash
  have hrstrip : ∀ d : List Char, pyStrip d ≠ [] →
      pyRstrip (p ++ delim ++ d) = (p ++ delim) ++ pyRstrip d := by
    intro d hd
    rw [List.append_assoc, ← List.append_assoc]
    exact pyRstrip_append (pyRstrip_ne_nil_of_pyStrip hd)
  have hind : get_indentation_level (pyRstrip l₁) = get_indentation_level (pyRstrip l₂) := by
    rw [he₁, he₂, hrstrip d₁ hd₁, hrstrip d₂ hd₂]
    unfold get_indentation_level
    rw [show (p ++ delim) ++ pyRstrip d₁ = p ++ delim ++ pyRstrip d₁ from rfl,
      show (p ++ delim) ++ pyRstrip d₂ = p ++ delim ++ pyRstrip d₂ from rfl,
      leadingSpaces_decomp p (pyRstrip d₁), leadingSpaces_decomp p (pyRstrip d₂)]
  have hconc : (parse_line (pyRstrip l₁)).1 = (parse_line (pyRstrip l₂)).1 := by
    rw [parse_line_pyRstrip, parse_line_pyRstrip, he₁, he₂,
      parse_line_decomp hocc hend hp hd₁, parse_line_decomp hocc hend hp hd₂]
  exact ⟨iff_of_false hb₁ hb₂, hind, hconc⟩

/-- The child loop is insensitive to descriptions: running it over two
description-related line lists from states agreeing on everything except the
table data yields the same emitted fragments, depth and angle counters. -/
theorem runChildren_congr :
    ∀ {ls₁ ls₂ : List (List Char)}, List.Forall₂ relatedLine ls₁ ls₂ →
      ∀ s₁ s₂ : EmitState, s₁.tikz_nodes = s₂.tikz_nodes →
        s₁.current_depth = s₂.current_depth → s₁.angle_index = s₂.angle_index →
        (runChildren s₁ ls₁).tikz_nodes = (runChildren s₂ ls₂).tikz_nodes ∧
        (runChildren s₁ ls₁).current_depth = (runChildren s₂ ls₂).current_depth ∧
        (runChildren s₁ ls₁).angle_index = (runChildren s₂ ls₂).angle_index := by
  intro ls₁ ls₂ h
  induction h with
  | nil => intro s₁ s₂ h1 h2 h3; exact ⟨h1, h2, h3⟩
  | @cons a b t₁ t₂ hrel hrest ih =>
    intro s₁ s₂ h1 h2 h3
    obtain ⟨hbiff, hind, hconc⟩ := relatedLine_facts hrel
    by_cases hba : pyStrip (pyRstrip a) = []
    · have hbb : pyStrip (pyRstrip b) = [] := by
        rw [pyStrip_pyRstrip] at hba ⊢
        exact hbiff.mp hba
      rw [runChildren, runChildren, stepChild_of_blank hba, stepChild_of_blank hbb]
      exact ih s₁ s₂ h1 h2 h3
    · have hbb : pyStrip (pyRstrip b) ≠ [] := by
        rw [pyStrip_pyRstrip] at hba ⊢
        exact fun hx => hba (hbiff.mpr hx)
      have hcd : childDepth s₂.current_depth (pyRstrip a)
          = childDepth s₂.current_depth (pyRstrip b) := by
        simp only [childDepth, hind]
      rw [runChildren, runChildren, stepChild_of_nonblank hba, stepChild_of_nonblank hbb]
      apply ih
      · simp only [h1, h2, h3, hcd, hconc]
      · simp only [h2, hcd]
      · simp only [h2, h3, hcd]

/-- The non-table part of the output only depends on the blank pattern,
indentation and concept labels of the lines. -/
theorem nonTablePart_congr {ls₁ ls₂ : List (List Char)}
    (h : List.Forall₂ relatedLine ls₁ ls₂) : nonTablePart ls₁ = nonTablePart ls₂ := by
  cases h with
  | nil => rfl
  | @cons a b t₁ t₂ hrel hrest =>
    obtain ⟨_, _, hconc⟩ := relatedLine_facts hrel
    have hroot : rootConcept (a :: t₁) = rootConcept (b :: t₂) := by
      simpa [rootConcept] using hconc
    obtain ⟨he, hc, _⟩ :=
      runChildren_congr hrest
        ⟨[], [parse_line (pyRstrip a)], 0, 0⟩
        ⟨[], [parse_line (pyRstrip b)], 0, 0⟩ rfl rfl rfl
    have hev : tikzEvents (a :: t₁) = tikzEvents (b :: t₂) := by
      simp only [tikzEvents, finalState, he, hc]
    simp only [nonTablePart, rootNodeDefinition, hroot, hev]

/-! ### Escaping lemmas -/

theorem replaceChar_append (c : Char) (r a b : List Char) :
    replaceChar c r (a ++ b) = replaceChar c r a ++ replaceChar c r b := by
  induction a with
  | nil => rfl
  | cons x a ih =>
    by_cases h : x = c <;> simp [replaceChar, h, ih]

theorem escapeTable_cons (x : Char) (s : List Char) :
    escapeTable (x :: s) = escCharTable x ++ escapeTable s := by
  by_cases h1 : x = '\\'
  · subst h1; rfl
  by_cases h2 : x = '&'
  · subst h2; rfl
  by_cases h3 : x = '%'
  · subst h3; rfl
  by_cases h4 : x = '_'
  · subst h4; rfl
  simp [escapeTable, escCharTable, replaceChar, h1, h2, h3, h4]

/-- The sequential `replace` calls of the table escaping amount to one
character-by-character substitution: this is exactly the no-double-escaping
property (the backslashes introduced for `&`, `%`, `_` are never themselves
rewritten, because the backslash pass runs first). -/
theorem escapeTable_eq_flatMap (s : List Char) :
    escapeTable s = s.flatMap escCharTable := by
  induction s with
  | nil => rfl
  | cons x s ih => rw [List.flatMap_cons, escapeTable_cons, ih]

/-! ### Depth-trace lemmas -/

theorem childDepthTrace_ge_one (ls : List (List Char)) :
    ∀ cd, ∀ x ∈ childDepthTrace cd ls, 1 ≤ x := by
  induction ls with
  | nil => simp [childDepthTrace]
  | cons l ls ih =>
    intro cd x hx
    by_cases h : pyStrip (pyRstrip l) = []
    · rw [childDepthTrace, if_pos h] at hx
      exact ih cd x hx
    · rw [childDepthTrace, if_neg h] at hx
      rcases List.mem_cons.mp hx with rfl | hx'
      · exact one_le_childDepth cd (pyRstrip l)
      · exact ih _ x hx'

theorem childDepthTrace_chain (ls : List (List Char)) :
    ∀ cd, List.Chain' (fun a b => b ≤ a + 1) (cd :: childDepthTrace cd ls) := by
  induction ls with
  | nil => intro cd; simp [childDepthTrace]
  | cons l ls ih =>
    intro cd
    by_cases h : pyStrip (pyRstrip l) = []
    · rw [childDepthTrace, if_pos h]
      exact ih cd
    · rw [childDepthTrace, if_neg h, List.chain'_cons]
      exact ⟨childDepth_le_succ cd (pyRstrip l), ih _⟩

/-! ### Concrete inputs used by scenario theorems and witnesses -/

/-- The literal input of the spec's walk-through scenario (2-space and 4-space
indents as written). -/
def demoLiteral : List (List Char) :=
  [chars "Root", chars "  ChildA - descA", chars "    GrandchildA", chars "  ChildB"]

/-- The same scenario with each level actually indented by 4 spaces. -/
def demoIndented : List (List Char) :=
  [chars "Root", chars "    ChildA - descA", chars "        GrandchildA", chars "    ChildB"]

/-- A root with seven depth-1 children (to exercise the angle cycle wrap). -/
def demoAngles : List (List Char) :=
  [chars "R", chars "A", chars "B", chars "C", chars "D", chars "E", chars "F", chars "G"]

/-- A state with two open branch levels, for the close-phase witness. -/
def wState : EmitState := ⟨[], [], 2, 0⟩

/-- Witness input pair for description-independence: an identical
description-less root line, and child lines with the same label and
indentation but different descriptions. -/
def w10a : List (List Char) := [chars "Root", chars "  A - x"]

/-- Second component of the description-independence witness pair. -/
def w10b : List (List Char) := [chars "Root", chars "  A - y"]

/-! ### The claims -/

set_option maxRecDepth 100000
set_option maxHeartbeats 1000000

/-- C1: for every non-blank child line, the committed depth (the loop's new
`current_depth`) equals `min(max(1, leading_spaces // 4), previous_depth + 1)`;
consequently every non-root depth is ≥ 1 and at most one more than the
previous depth, while arbitrary downward jumps are allowed (the depth
sequence only satisfies the `≤ prev + 1` chain constraint). -/
theorem c1_depth_clamp :
    (∀ (s : EmitState) (l : List Char), pyStrip (pyRstrip l) ≠ [] →
      (stepChild s l).current_depth
          = min (max 1 (get_indentation_level (pyRstrip l))) (s.current_depth + 1) ∧
        1 ≤ (stepChild s l).current_depth ∧
        (stepChild s l).current_depth ≤ s.current_depth + 1) ∧
    (∀ (cd : Nat) (ls : List (List Char)),
      (∀ x ∈ childDepthTrace cd ls, 1 ≤ x) ∧
      List.Chain' (fun a b => b ≤ a + 1) (cd :: childDepthTrace cd ls)) := by
  constructor
  · intro s l h
    rw [stepChild_of_nonblank h]
    exact ⟨childDepth_eq_min s.current_depth (pyRstrip l),
      one_le_childDepth s.current_depth (pyRstrip l),
      childDepth_le_succ s.current_depth (pyRstrip l)⟩
  · intro cd ls
    exact ⟨childDepthTrace_ge_one ls cd, childDepthTrace_chain ls cd⟩

/-- Witness for C1: the malformed-jump line `"        Deep"` (8 spaces, raw
depth 2) processed after the root is clamped to depth `min(2, 0+1) = 1`. -/
theorem c1_depth_clamp_witness :
    pyStrip (pyRstrip (chars "        Deep")) ≠ [] ∧
    ((stepChild ⟨[], [], 0, 0⟩ (chars "        Deep")).current_depth
        = min (max 1 (get_indentation_level (pyRstrip (chars "        Deep")))) (0 + 1) ∧
      1 ≤ (stepChild ⟨[], [], 0, 0⟩ (chars "        Deep")).current_depth ∧
      (stepChild ⟨[], [], 0, 0⟩ (chars "        Deep")).current_depth ≤ 0 + 1) :=
  ⟨by decide, c1_depth_clamp.1 ⟨[], [], 0, 0⟩ (chars "        Deep") (by decide)⟩

/-- C2: for every input line sequence, the emitted branch markup is
well-balanced: the total number of `child {` openings equals the total number
of `}` closings (interior closings plus the final closing run). -/
theorem c2_balanced (lines : List (List Char)) :
    opensCount (tikzEvents lines) = closesCount (tikzEvents lines) := by
  cases lines with
  | nil => rfl
  | cons l0 rest =>
    have hinv := balance_invariant rest ⟨[], [parse_line (pyRstrip l0)], 0, 0⟩
      (by simp [opensCount, closesCount])
    simp only [tikzEvents, finalState]
    by_cases h : (runChildren ⟨[], [parse_line (pyRstrip l0)], 0, 0⟩ rest).current_depth > 0
    · rw [if_pos h, opensCount_append, closesCount_append, opensCount_finalClose,
        closesCount_finalClose]
      omega
    · rw [if_neg h, List.append_nil]
      omega

/-- C3 counterexample: on the literal scenario input (whose child lines are
indented by 2, 4 and 2 spaces), the parser assigns depths `[0,1,1,1]` — not
`[0,1,2,1]` — and GrandchildA receives its own angled depth-1 branch
(`child[grow=30]`) instead of a nested unangled branch. -/
theorem c3_scenario_counterexample :
    depthTrace demoLiteral = [0, 1, 1, 1] ∧
    depthTrace demoLiteral ≠ [0, 1, 2, 1] ∧
    tikzEvents demoLiteral =
      [Emit.openAngle 1 150, Emit.nodeContent 1 (chars "ChildA"),
       Emit.closeBr 1 1, Emit.openAngle 1 30, Emit.nodeContent 1 (chars "GrandchildA"),
       Emit.closeBr 1 1, Emit.openAngle 1 270, Emit.nodeContent 1 (chars "ChildB"),
       Emit.finalClose 1] := by
  refine ⟨by decide, by decide, by decide⟩

/-- C3 (amended): for the scenario input with each level indented by 4 spaces
(`["Root", "    ChildA - descA", "        GrandchildA", "    ChildB"]`), the
parser produces depths `[0,1,2,1]`; the emitter opens a branch for ChildA
with angle index 0 (150), a nested unangled branch for GrandchildA, closes 2
branches on reaching ChildB and opens a branch with angle index 1 (30), and
emits exactly 1 final closing. -/
theorem c3_scenario_amended :
    depthTrace demoIndented = [0, 1, 2, 1] ∧
    tikzEvents demoIndented =
      [Emit.openAngle 1 (angleAt 0), Emit.nodeContent 1 (chars "ChildA"),
       Emit.openPlain 2, Emit.nodeContent 2 (chars "GrandchildA"),
       Emit.closeBr 1 2, Emit.openAngle 1 (angleAt 1), Emit.nodeContent 1 (chars "ChildB"),
       Emit.finalClose 1] ∧
    angleAt 0 = 150 ∧ angleAt 1 = 30 := by
  refine ⟨by decide, by decide, by decide, by decide⟩

/-- C4 counterexample: the one-line input consisting of a single blank line is
a non-empty sequence with 0 non-blank lines, yet it produces 1 table row (the
code unconditionally records `lines[0]` as the root's table entry). -/
theorem c4_row_count_counterexample :
    (tableRows [([] : List Char)]).length = 1 ∧
    nonBlankCount [([] : List Char)] = 0 ∧
    (tableRows [([] : List Char)]).length ≠ nonBlankCount [([] : List Char)] := by
  refine ⟨by decide, by decide, by decide⟩

/-- C4 (amended): for every input whose first line is non-blank, the number of
rendered table rows equals the number of non-blank input lines (one row for
the first line, plus one per subsequent non-blank line, in document order). -/
theorem c4_row_count (l0 : List Char) (rest : List (List Char))
    (h : pyStrip l0 ≠ []) :
    (tableRows (l0 :: rest)).length = nonBlankCount (l0 :: rest) := by
  simp only [tableRows, List.length_map, tableData, finalState, runChildren_table]
  rw [List.length_append, tableEntries_length]
  simp only [nonBlankCount, List.countP_cons]
  have hb : (!(pyStrip l0).isEmpty) = true := by
    simpa [List.isEmpty_iff] using h
  rw [hb]
  simp [Nat.add_comm]

/-- Witness for C4 (amended): a three-line input with a non-blank first line,
one non-blank child and one blank line has 2 table rows and 2 non-blank
lines. -/
theorem c4_row_count_witness :
    pyStrip (chars "Root") ≠ [] ∧
    (tableRows (chars "Root" :: [chars "  A - b", chars "   "])).length
        = nonBlankCount (chars "Root" :: [chars "  A - b", chars "   "]) :=
  ⟨by decide, c4_row_count (chars "Root") [chars "  A - b", chars "   "] (by decide)⟩

/-- C5 counterexample: on input `["", "X"]` the first non-blank line is
`"X"`, but the code takes `lines[0]` — the blank line — as the root: the root
concept is empty and the first table entry is the empty pair. -/
theorem c5_root_counterexample :
    specFirstNonBlank [([] : List Char), chars "X"] = some (chars "X") ∧
    rootConcept [([] : List Char), chars "X"] = [] ∧
    (tableData [([] : List Char), chars "X"]).head? = some ([], []) ∧
    rootConcept [([] : List Char), chars "X"] ≠ chars "X" := by
  refine ⟨by decide, by decide, by decide, by decide⟩

/-- C5 (amended): for every non-empty input, the root node is built from the
*first line* of the input (blank or not): it is assigned depth 0 regardless
of its leading whitespace, its parsed (label, description) pair heads the
table data, and it is emitted once, before all child branches, outside the
close/open bookkeeping (the output is the header, then the root node
definition, then the branch fragments). -/
theorem c5_root_amended (l0 : List Char) (rest : List (List Char)) :
    (depthTrace (l0 :: rest)).head? = some 0 ∧
    (tableData (l0 :: rest)).head? = some (parse_line (pyRstrip l0)) ∧
    generate_tikz_code (l0 :: rest) =
      LATEX_START_TEMPLATE ++ rootNodeDefinition (l0 :: rest)
        ++ ((tikzEvents (l0 :: rest)).map render).flatten ++ TIKZ_END
        ++ generate_latex_table (tableData (l0 :: rest)) ++ LATEX_END := by
  refine ⟨rfl, ?_, ?_⟩
  · simp [tableData, finalState, runChildren_table]
  · rw [generate_tikz_code, if_neg (by simp)]
    simp [nonTablePart, List.append_assoc]

/-- C6: when a non-blank child line's committed depth `d` satisfies
`d ≤ current_depth`, the emitter closes exactly `(current_depth − d) + 1`
branches before opening the new one; when `d = current_depth + 1` it closes
none. -/
theorem c6_close_count (s : EmitState) (l : List Char)
    (h : pyStrip (pyRstrip l) ≠ []) :
    (childDepth s.current_depth (pyRstrip l) ≤ s.current_depth →
      closesCount (stepChild s l).tikz_nodes
        = closesCount s.tikz_nodes
            + (s.current_depth - childDepth s.current_depth (pyRstrip l) + 1)) ∧
    (childDepth s.current_depth (pyRstrip l) = s.current_depth + 1 →
      closesCount (stepChild s l).tikz_nodes = closesCount s.tikz_nodes) := by
  rw [stepChild_of_nonblank h]
  constructor
  · intro hle
    simp only [closesCount_append, closesCount_childEmits, if_pos hle]
  · intro heq
    have hgt : ¬ childDepth s.current_depth (pyRstrip l) ≤ s.current_depth := by omega
    simp only [closesCount_append, closesCount_childEmits, if_neg hgt]
    omega

/-- Witness for C6: from a state with `current_depth = 2`, the line
`"    X"` (raw depth 1, committed depth 1) closes `(2 − 1) + 1 = 2`
branches. -/
theorem c6_close_count_witness :
    childDepth wState.current_depth (pyRstrip (chars "    X")) ≤ wState.current_depth ∧
    closesCount (stepChild wState (chars "    X")).tikz_nodes
        = closesCount wState.tikz_nodes
            + (wState.current_depth - childDepth wState.current_depth (pyRstrip (chars "    X")) + 1) :=
  ⟨by decide, (c6_close_count wState (chars "    X") (by decide)).1 (by decide)⟩

/-- C7: the k-th (0-indexed) angled branch opening carries angle
`LEVEL_1_ANGLES[k mod 6]`, and every angled opening is at depth 1 (deeper
branches are opened with the unangled `child {`). -/
theorem c7_angle_cycle (lines : List (List Char)) :
    (∀ k, k < (anglesOf (tikzEvents lines)).length →
      (anglesOf (tikzEvents lines)).getD k 0
        = LEVEL_1_ANGLES.getD (k % LEVEL_1_ANGLES.length) 0) ∧
    (∀ d a, Emit.openAngle d a ∈ tikzEvents lines → d = 1) := by
  cases lines with
  | nil => exact ⟨by simp [tikzEvents, finalState, anglesOf, runChildren], by
      simp [tikzEvents, finalState, runChildren]⟩
  | cons l0 rest =>
    have hA := angle_invariant rest ⟨[], [parse_line (pyRstrip l0)], 0, 0⟩
      (by simp [anglesOf])
    have hD := angled_depth_one_invariant rest ⟨[], [parse_line (pyRstrip l0)], 0, 0⟩
      (by simp)
    have hfin : anglesOf (tikzEvents (l0 :: rest))
        = anglesOf (runChildren ⟨[], [parse_line (pyRstrip l0)], 0, 0⟩ rest).tikz_nodes := by
      simp only [tikzEvents, finalState, anglesOf_append]
      split <;> simp [anglesOf]
    constructor
    · intro k hk
      rw [hfin, hA] at hk ⊢
      rw [List.getD_eq_getElem?_getD, List.getElem?_map]
      rw [List.length_map, List.length_range] at hk
      rw [List.getElem?_range hk]
      rfl
    · intro d a hmem
      simp only [tikzEvents, finalState] at hmem
      rcases List.mem_append.mp hmem with h1 | h2
      · exact hD d a h1
      · split at h2 <;> simp at h2

/-- Witness for C7: with seven depth-1 children, the 7th angled branch
(index 6) wraps around the 6-element cycle back to 150. -/
theorem c7_angle_cycle_witness :
    6 < (anglesOf (tikzEvents demoAngles)).length ∧
    (anglesOf (tikzEvents demoAngles)).getD 6 0
        = LEVEL_1_ANGLES.getD (6 % LEVEL_1_ANGLES.length) 0 :=
  ⟨by decide, (c7_angle_cycle demoAngles).1 6 (by decide)⟩

/-- C8: each table cell is escaped by the single-pass character substitution
`escCharTable` (backslash → `\textbackslash `, `&` → `\&`, `%` → `\%`,
`_` → `\_`, all other characters unchanged): because the backslash pass runs
first, the backslashes introduced for the other three characters are never
re-escaped.  In particular, `A & B_C` becomes `A \& B\_C`. -/
theorem c8_table_escaping :
    (∀ node desc : List Char,
      renderTableRow node desc
        = chars "    " ++ node.flatMap escCharTable ++ chars " & "
            ++ desc.flatMap escCharTable ++ chars " \\\\") ∧
    escapeTable (chars "A & B_C") = chars "A \\& B\\_C" := by
  constructor
  · intro node desc
    simp only [renderTableRow, escapeTable_eq_flatMap]
  · decide

/-- C9: for the empty input line sequence, `main` writes exactly the fixed
header boilerplate, a newline, and the fixed footer boilerplate: the output
contains no `child` branch markup, no longtable and no table rows at all. -/
theorem c9_empty_input :
    mainOutput [] = LATEX_START_TEMPLATE ++ chars "\n" ++ LATEX_END ∧
    occursSub (chars "child") (mainOutput []) = false ∧
    occursSub (chars "\\begin\x7blongtable\x7d") (mainOutput []) = false ∧
    occursSub (chars "\\midrule") (mainOutput []) = false := by
  refine ⟨rfl, by decide, by decide, by decide⟩

/-- C10: if two inputs differ only in the description text after the first
`" - "` delimiter of corresponding lines (same line count, same prefixes
including labels and indentation; corresponding lines without a delimiter —
including blank lines — are identical), then the generated outputs agree
outside the table block: the entire header/root/branch part is identical,
and the full output of the first input is that shared part followed by its
own table and the constant footer. -/
theorem c10_desc_independence (lines₁ lines₂ : List (List Char))
    (h : List.Forall₂ relatedLine lines₁ lines₂) :
    nonTablePart lines₁ = nonTablePart lines₂ ∧
    (lines₁ ≠ [] →
      generate_tikz_code lines₁
          = nonTablePart lines₂ ++ generate_latex_table (tableData lines₁) ++ LATEX_END) := by
  have hnt := nonTablePart_congr h
  refine ⟨hnt, fun hne => ?_⟩
  rw [generate_tikz_code, if_neg hne, hnt]

/-- Witness for C10: two concrete inputs — an identical description-less
root line plus child lines differing only in their descriptions — produce
the same non-table output part. -/
theorem c10_desc_independence_witness :
    List.Forall₂ relatedLine w10a w10b ∧ nonTablePart w10a = nonTablePart w10b := by
  have hf : List.Forall₂ relatedLine w10a w10b := by
    refine List.Forall₂.cons (Or.inl rfl) ?_
    refine List.Forall₂.cons
      (Or.inr ⟨chars "  A", chars "x", chars "y", by decide⟩) ?_
    exact List.Forall₂.nil
  exact ⟨hf, (c10_desc_independence w10a w10b hf).1⟩

end Mmlatex
